import Mathlib

/-!
Verification development for the `halide` progressive ray tracer.

The Rust sources are modelled shallowly:

* exact-arithmetic code paths (the Halton sampler in `halton.rs`, pixel
  packing in `util.rs`, the buffer bookkeeping in `renderer.rs`, the
  screen-coordinate grid of `camera.rs`) are embedded over `ℚ`/`ℕ` and are
  fully executable;
* the geometric paths that use `sqrt`/trigonometry (`hittable.rs`,
  `renderer.rs` tracing, `camera.rs` matrices, `material.rs`) are embedded
  over `ℝ`.

`f32` arithmetic is modelled as exact arithmetic; the golden-value
tolerances stated by the spec (±1e-3) absorb the floating-point rounding
the model elides.
-/

/-! ## Rational vectors (pixel colors) -/

/-- Component type of `glam::Vec3` when used for colors, over `ℚ`. -/
structure Q3 where
  x : ℚ
  y : ℚ
  z : ℚ
deriving DecidableEq, Repr

/-- Component type of `glam::Vec4` colors, over `ℚ`. -/
structure Q4 where
  x : ℚ
  y : ℚ
  z : ℚ
  w : ℚ
deriving DecidableEq, Repr

/-- `Vec3::extend` from glam: append a `w` component. -/
def Q3.extend (v : Q3) (w : ℚ) : Q4 := ⟨v.x, v.y, v.z, w⟩

/-- Componentwise division of a color by a scalar (`Vec3 / f32`). -/
def Q3.divScalar (v : Q3) (s : ℚ) : Q3 := ⟨v.x / s, v.y / s, v.z / s⟩

/-- Scalar clamp, `f32::clamp(lo, hi)` = `min (max x lo) hi`. -/
def clampQ (x lo hi : ℚ) : ℚ := min (max x lo) hi

/-- `Vec4::clamp` from glam: componentwise clamp. -/
def Q4.clamp (v : Q4) (lo hi : ℚ) : Q4 :=
  ⟨clampQ v.x lo hi, clampQ v.y lo hi, clampQ v.z lo hi, clampQ v.w lo hi⟩

/-- Rust `as u32` applied to a non-negative `f32`: truncation toward zero. -/
def ratToU32 (x : ℚ) : ℕ := (Int.floor x).toNat

/-! ## util.rs: pixel packing -/

/-- `util::color_rgba`: clamp each channel to `[0,1]`, scale by 255,
truncate to an integer and pack as `a << 24 | b << 16 | g << 8 | r`. -/
def color_rgba (c : Q4) : ℕ :=
  let c := c.clamp 0 1
  let r := ratToU32 (c.x * 255)
  let g := ratToU32 (c.y * 255)
  let b := ratToU32 (c.z * 255)
  let a := ratToU32 (c.w * 255)
  (((a <<< 24) ||| (b <<< 16)) ||| (g <<< 8)) ||| r

/-- `util::color_rgb`: extend with alpha 1 and pack. -/
def color_rgb (c : Q3) : ℕ := color_rgba (c.extend 1)

/-- The value of one packed channel: clamp to `[0,1]`, scale to `0..=255`. -/
def chanByte (x : ℚ) : ℕ := ratToU32 (clampQ x 0 1 * 255)

/-- The final packing pass of `Renderer::render_accumulate` (renderer.rs
lines 111-118): every output pixel is `color_rgb (acc / frame_count)`. -/
def packPass (acc : List Q3) (frameCount : ℚ) : List ℕ :=
  acc.map (fun v => color_rgb (v.divScalar frameCount))

/-! ## halton.rs: the low-discrepancy sampler -/

/-- Loop body of `Halton::next`: repeatedly divide the index by the base,
accumulating `remainder / base^k`.  The loop variable strictly decreases
(`i := i / b` with `b ≥ 2`), so `i` itself bounds the number of
iterations; the `fuel` argument makes that bound explicit. -/
def radInvGo (b : ℕ) : ℕ → ℕ → ℚ → ℚ → ℚ
  | 0, _, _, r => r
  | _ + 1, 0, _, r => r
  | fuel + 1, i, f, r =>
      radInvGo b fuel (i / b) (f / b) (r + (f / b) * ((i % b : ℕ) : ℚ))

/-- The radical inverse of `i` in base `b` (`Halton::next` for index `i`). -/
def radicalInverse (b i : ℕ) : ℚ := radInvGo b i i 1 0

/-- State of `halton::Halton`. -/
structure Halton where
  base : ℕ
  index : ℕ
deriving DecidableEq, Repr

/-- `Halton::new`: the counter starts at 1. -/
def Halton.new (base : ℕ) : Halton := ⟨base, 1⟩

/-- `Halton::next`: emit the radical inverse of the current counter and
advance the counter. -/
def Halton.next (h : Halton) : ℚ × Halton :=
  (radicalInverse h.base h.index, ⟨h.base, h.index + 1⟩)

/-- The first `n` outputs of a sampler state. -/
def haltonOutputs : Halton → ℕ → List ℚ
  | _, 0 => []
  | h, n + 1 =>
      let step := h.next
      step.1 :: haltonOutputs step.2 n

/-- State of `halton::Halton2`: a pair of independent 1-D sequences. -/
structure Halton2 where
  fst : Halton
  snd : Halton
deriving DecidableEq, Repr

/-- `Halton2::next`. -/
def Halton2.next (h : Halton2) : (ℚ × ℚ) × Halton2 :=
  ((h.fst.next.1, h.snd.next.1), ⟨h.fst.next.2, h.snd.next.2⟩)

/-- `Halton::two_d`: pair two fresh sequences and burn `base1 * base2`
initial draws before exposing the iterator. -/
def Halton.two_d (b1 b2 : ℕ) : Halton2 :=
  (fun h : Halton2 => h.next.2)^[b1 * b2] ⟨Halton.new b1, Halton.new b2⟩

/-! ## camera.rs: the screen-coordinate grid

`Camera::compute_ray_directions` computes, for each pixel `(x, y)`,
`coord = Vec2::new(x / w, y / h) * 2. - Vec2::ONE` (line 167) and pushes
the unprojected direction into a flat vector, `y` outermost. -/

/-- The normalized device coordinate the camera uses for pixel `(x, y)`
at image size `w × h` (camera.rs line 167).  No jitter term appears. -/
def cameraNdc (w h x y : ℕ) : ℚ × ℚ :=
  ((x / w : ℚ) * 2 - 1, (y / h : ℚ) * 2 - 1)

/-- The full-frame coordinate grid built by the double loop of
`compute_ray_directions`: `y` is the outer loop, `x` the inner one, so the
pixel `(x, y)` lands at flat index `y * w + x`. -/
def cameraNdcGrid (w h : ℕ) : List (ℚ × ℚ) :=
  (List.range h).flatMap fun y => (List.range w).map fun x => cameraNdc w h x y

/-- Modelled from the spec: the claimed jittered coordinate.  The spec says
one jitter sample `j` is drawn per call to the direction-generation entry
point and added, offset by `−0.5`, to every pixel's normalized device
coordinate.  This definition exists only to be compared with `cameraNdc`,
the coordinate the source actually computes. -/
def specJitteredNdc (j : ℚ × ℚ) (w h x y : ℕ) : ℚ × ℚ :=
  ((cameraNdc w h x y).1 + (j.1 - 1/2), (cameraNdc w h x y).2 + (j.2 - 1/2))

/-! ## renderer.rs: buffer bookkeeping -/

/-- `Vec::resize(n, v)`: truncate to `n` or extend with copies of `v`. -/
def listResize {α : Type} (l : List α) (n : ℕ) (v : α) : List α :=
  l.take n ++ List.replicate (n - l.length) v

/-- The state of `Renderer` relevant to resizing and accumulation. -/
structure RendererState where
  imageData : List ℕ
  accumulation : List Q3
  frameCount : ℚ
  width : ℕ
  height : ℕ
  useAccumulation : Bool
deriving DecidableEq, Repr

/-- `Renderer::image_len`. -/
def RendererState.imageLen (r : RendererState) : ℕ := r.width * r.height

/-- `Renderer::reset_accumulation`: truncate the accumulation buffer to 0,
resize it back to `image_len` filled with zero, and zero the frame
counter.  The output buffer is untouched. -/
def resetAccumulation (r : RendererState) : RendererState :=
  { r with
    accumulation := listResize (r.accumulation.take 0) r.imageLen ⟨0, 0, 0⟩
    frameCount := 0 }

/-- `Renderer::resize`: a no-op when the dimensions are unchanged;
otherwise store the new dimensions, reset accumulation, and rebuild the
output buffer at the new length. -/
def rendererResize (r : RendererState) (width height : ℕ) : RendererState :=
  if (r.width, r.height) ≠ (width, height) then
    let r1 := { r with width := width, height := height }
    let r2 := resetAccumulation r1
    { r2 with imageData := listResize (r2.imageData.take 0) r2.imageLen 0 }
  else r

noncomputable section

open Classical

/-! ## Real 3-vectors (`glam::Vec3` in geometric code) -/

/-- Component type of `glam::Vec3` in the geometric code paths, over `ℝ`. -/
structure V3 where
  x : ℝ
  y : ℝ
  z : ℝ

instance : Zero V3 := ⟨⟨0, 0, 0⟩⟩

instance : Add V3 := ⟨fun a b => ⟨a.x + b.x, a.y + b.y, a.z + b.z⟩⟩

instance : Sub V3 := ⟨fun a b => ⟨a.x - b.x, a.y - b.y, a.z - b.z⟩⟩

instance : Neg V3 := ⟨fun a => ⟨-a.x, -a.y, -a.z⟩⟩

instance : SMul ℝ V3 := ⟨fun s a => ⟨s * a.x, s * a.y, s * a.z⟩⟩

/-- Componentwise product (`Vec3 * Vec3` in glam). -/
def vmul (a b : V3) : V3 := ⟨a.x * b.x, a.y * b.y, a.z * b.z⟩

/-- `Vec3::dot`. -/
def dotV (a b : V3) : ℝ := a.x * b.x + a.y * b.y + a.z * b.z

/-- `Vec3::length_squared`. -/
def normSq (a : V3) : ℝ := a.x * a.x + a.y * a.y + a.z * a.z

/-- `Vec3::length`. -/
def vlen (a : V3) : ℝ := Real.sqrt (normSq a)

/-- `Vec3::normalize`: multiply by the reciprocal length. -/
def normalizeV (a : V3) : V3 := (vlen a)⁻¹ • a

/-- `Vec3::cross`. -/
def crossV (a b : V3) : V3 :=
  ⟨a.y * b.z - a.z * b.y, a.z * b.x - a.x * b.z, a.x * b.y - a.y * b.x⟩

/-- `Vec3::try_normalize`: `Some` of the normalized vector when the
reciprocal length is finite and positive, `None` otherwise. -/
def tryNormalize (a : V3) : Option V3 :=
  if 0 < (vlen a)⁻¹ then some (normalizeV a) else none

/-- `Vec3Ext::reflect` (util.rs): reflect across a normalized `normal`
via `self - 2 * reject_from_normalized(self, normal)`. -/
def reflectV (v n : V3) : V3 := v - (2 : ℝ) • (v - dotV v n • n)

/-! ## geom.rs and scene.rs data -/

/-- `geom::Ray`. -/
structure RayR where
  origin : V3
  direction : V3

/-- `scene::Sphere` (also the sphere payload of `hittable::Hittable`). -/
structure Sphere where
  center : V3
  radius : ℝ
  materialIndex : ℕ

/-- `Sphere::default`. -/
def defaultSphere : Sphere := ⟨⟨0, 0, 0⟩, 1, 0⟩

/-- `scene::Material` (the struct with albedo/roughness/metallic used by
renderer.rs). -/
structure SceneMaterial where
  albedo : V3
  roughness : ℝ
  metallic : ℝ

/-- `scene::Material::default`. -/
def defaultSceneMaterial : SceneMaterial := ⟨⟨1, 1, 1⟩, 1/2, 0⟩

/-- `scene::Scene`: ordered registries of spheres and materials. -/
structure SceneR where
  spheres : List Sphere
  materials : List SceneMaterial
  lightDirection : V3

/-- `Scene::sphere(idx)`.  Rust indexing panics out of bounds; the model
totalizes with `Sphere::default`, and every index the renderer produces is
in bounds. -/
def SceneR.sphere (sc : SceneR) (idx : ℕ) : Sphere := sc.spheres.getD idx defaultSphere

/-- `Scene::material(idx)`, totalized like `Scene::sphere`. -/
def SceneR.material (sc : SceneR) (idx : ℕ) : SceneMaterial :=
  sc.materials.getD idx defaultSceneMaterial

/-! ## hittable.rs -/

/-- `hittable::FaceSide`. -/
inductive FaceSide where
  | Front
  | Back
deriving DecidableEq, Repr

/-- `hittable::HitPayload`. -/
inductive HitPayload where
  | Hit (hitDistance : ℝ) (worldNormal worldPosition : V3) (materialIndex : ℕ)
      (side : FaceSide)
  | Miss
  | Inside

/-- `Range::<f32>::contains`: `start <= t && t < end`. -/
def inClip (lo hi t : ℝ) : Prop := lo ≤ t ∧ t < hi

/-- `Hittable::check_hit_sphere`: reports `Inside` when the ray origin is
strictly inside the sphere; otherwise solves the ray-sphere quadratic with
the half-`b` formulation, takes the smaller root, falls back to the larger
root when the smaller one is outside the clip range, and on acceptance
orients the normal against the incoming ray, marking back-face hits. -/
def checkHitSphere (s : Sphere) (ray : RayR) (lo hi : ℝ) : HitPayload :=
  let offsetCenter := ray.origin - s.center
  if vlen offsetCenter < s.radius then .Inside
  else
    let a := normSq ray.direction
    let halfB := dotV offsetCenter ray.direction
    let c := normSq offsetCenter - s.radius ^ 2
    let discrim := halfB ^ 2 - a * c
    if discrim < 0 then .Miss
    else
      let sqrtd := Real.sqrt discrim
      let tSmall := (-halfB - sqrtd) / a
      let t := if inClip lo hi tSmall then tSmall else (-halfB + sqrtd) / a
      if inClip lo hi t then
        let worldPosition := ray.origin + t • ray.direction
        let worldNormal := normalizeV (worldPosition - s.center)
        if 0 < dotV ray.direction worldNormal then
          .Hit t (-worldNormal) worldPosition s.materialIndex .Back
        else
          .Hit t worldNormal worldPosition s.materialIndex .Front
      else .Miss

/-- The parametric distance carried by a `Hit`, if any. -/
def hitDist : HitPayload → Option ℝ
  | .Hit t _ _ _ _ => some t
  | _ => none

/-! ## material.rs -/

/-- `material::Material`. -/
inductive MaterialM where
  | Null
  | Lambertian (albedo : V3)

/-- `material::ScatterPayload`. -/
structure ScatterPayload where
  ray : RayR
  attenuation : V3

/-- `Material::scatter`.  The Lambertian case draws a random unit vector;
the model receives that draw as the `randUnit` argument.  `Null` absorbs
everything, and `Miss`/`Inside` payloads are never scattered. -/
def scatterM (m : MaterialM) (hit : HitPayload) (incomingRay : RayR)
    (randUnit : V3) : Option ScatterPayload :=
  let _ := incomingRay
  match m with
  | .Null => none
  | .Lambertian albedo =>
    match hit with
    | .Hit _ worldNormal worldPosition _ _ =>
      let direction := normalizeV (worldNormal + randUnit)
      some ⟨⟨worldPosition + (1/1000 : ℝ) • direction, direction⟩, albedo⟩
    | .Miss => none
    | .Inside => none

/-! ## renderer.rs: tracing -/

/-- The renderer's private `HitPayload` (renderer.rs lines 129-137). -/
inductive RHitPayload where
  | Hit (worldNormal worldPosition : V3) (objectIndex : ℕ)
  | Miss

/-- One iteration body of the loop in `RenderFrame::trace_ray`: the
candidate parametric distance a sphere contributes, if any.  The quadratic
uses the full-`b` formulation, and only the smaller root `t0` is ever
tested against the clip range. -/
def sphereCandidate (lo hi : ℝ) (ray : RayR) (s : Sphere) : Option ℝ :=
  let offsetCenter := ray.origin - s.center
  let a := normSq ray.direction
  let b := 2 * dotV ray.direction offsetCenter
  let c := normSq offsetCenter - s.radius ^ 2
  let discrim := b ^ 2 - 4 * a * c
  if discrim < 0 then none
  else
    let t0 := (-b - Real.sqrt discrim) / (2 * a)
    if inClip lo hi t0 then some t0 else none

/-- The `closest` accumulator update of `trace_ray`: a new in-range
candidate replaces the stored one only when strictly closer. -/
def closestStep (closest : Option (ℕ × ℝ)) (index : ℕ) (cand : Option ℝ) :
    Option (ℕ × ℝ) :=
  match cand with
  | none => closest
  | some t0 =>
    match closest with
    | some (j, minT) => if t0 < minT then some (index, t0) else some (j, minT)
    | none => some (index, t0)

/-- The enumerated loop of `trace_ray` over the scene's spheres. -/
def traceLoop (lo hi : ℝ) (ray : RayR) :
    List Sphere → ℕ → Option (ℕ × ℝ) → Option (ℕ × ℝ)
  | [], _, closest => closest
  | s :: rest, index, closest =>
      traceLoop lo hi ray rest (index + 1)
        (closestStep closest index (sphereCandidate lo hi ray s))

/-- `RenderFrame::on_hit`: recompute the hit position and outward normal
for the winning sphere.  No orientation flip is performed here. -/
def onHit (spheres : List Sphere) (ray : RayR) (objectIndex : ℕ)
    (hitDistance : ℝ) : RHitPayload :=
  let s := spheres.getD objectIndex defaultSphere
  let hitPos := ray.origin + hitDistance • ray.direction
  let worldNormal := normalizeV (hitPos - s.center)
  .Hit worldNormal hitPos objectIndex

/-- `RenderFrame::trace_ray`: linear scan for the nearest in-range hit. -/
def traceRay (lo hi : ℝ) (ray : RayR) (spheres : List Sphere) :
    RHitPayload :=
  match traceLoop lo hi ray spheres 0 none with
  | some (objectIndex, t) => onHit spheres ray objectIndex t
  | none => .Miss

/-! ## renderer.rs: the per-pixel bounce loop -/

/-- `Vec3::try_normalize(...).unwrap_or(dflt)`. -/
def tryNormalizeOr (v dflt : V3) : V3 :=
  match tryNormalize v with
  | some n => n
  | none => dflt

/-- The fixed sky color of `ray_color`. -/
def skyColor : V3 := ⟨6/10, 7/10, 9/10⟩

/-- `RenderFrame::ray_color`: bounded recursion on the bounce budget.  A
miss returns the sky color; a hit reflects the ray about a
roughness-perturbed normal (the per-bounce random draw is `rng k`) and
recurses with the budget decreased by one; budget 0 returns black.  The
recursion is structural in the budget, which is the termination
argument. -/
def rayColor (sc : SceneR) (lo hi : ℝ) (rng : ℕ → V3) :
    ℕ → RayR → ℕ → V3
  | 0, _, _ => ⟨0, 0, 0⟩
  | budget + 1, ray, k =>
    match traceRay lo hi ray sc.spheres with
    | .Miss => skyColor
    | .Hit worldNormal worldPosition objectIndex =>
      let sphere := sc.sphere objectIndex
      let material := sc.material sphere.materialIndex
      let normalOffset := material.roughness • rng k
      let reflectionNormal := tryNormalizeOr (worldNormal + normalOffset) worldNormal
      let newDirection := reflectV (-ray.direction) reflectionNormal
      let newRay : RayR := ⟨worldPosition + (1/10000 : ℝ) • newDirection, newDirection⟩
      vmul (rayColor sc lo hi rng budget newRay (k + 1)) material.albedo

/-- `RenderFrame::per_pixel`: trace with a bounce budget of 16. -/
def perPixel (sc : SceneR) (lo hi : ℝ) (rng : ℕ → V3) (ray : RayR) : V3 :=
  rayColor sc lo hi rng 16 ray 0

/-- Instrumented twin of `ray_color` that also counts the scatter
(bounce) steps actually performed.  It mirrors `ray_color` line by line;
the count is the depth of recursion taken. -/
def rayColorCount (sc : SceneR) (lo hi : ℝ) (rng : ℕ → V3) :
    ℕ → RayR → ℕ → V3 × ℕ
  | 0, _, _ => (⟨0, 0, 0⟩, 0)
  | budget + 1, ray, k =>
    match traceRay lo hi ray sc.spheres with
    | .Miss => (skyColor, 0)
    | .Hit worldNormal worldPosition objectIndex =>
      let sphere := sc.sphere objectIndex
      let material := sc.material sphere.materialIndex
      let normalOffset := material.roughness • rng k
      let reflectionNormal := tryNormalizeOr (worldNormal + normalOffset) worldNormal
      let newDirection := reflectV (-ray.direction) reflectionNormal
      let newRay : RayR := ⟨worldPosition + (1/10000 : ℝ) • newDirection, newDirection⟩
      let rec' := rayColorCount sc lo hi rng budget newRay (k + 1)
      (vmul rec'.1 material.albedo, rec'.2 + 1)

/-! ## camera.rs: state, mutators, direction cache -/

/-- The state of `camera::Camera` (the `RwLock` around the cache is
irrelevant to the single-threaded contracts modelled here). -/
structure Camera where
  position : V3
  lookDirection : V3
  rightDirection : V3
  upDirection : V3
  verticalFov : ℝ
  width : ℕ
  height : ℕ
  clipLo : ℝ
  clipHi : ℝ
  cachedDirections : Option (List V3)

/-- `Camera::default`. -/
def defaultCamera : Camera :=
  ⟨⟨0, 0, 3⟩, ⟨0, 0, -1⟩, ⟨1, 0, 0⟩, ⟨0, 1, 0⟩, 25, 640, 480, 1/100, 100, none⟩

/-- 4×4 real matrices standing in for `glam::Mat4`. -/
abbrev Mat4 := Matrix (Fin 4) (Fin 4) ℝ

/-- `Mat4::look_to_rh(eye, dir, up)` per glam (columns written as rows of
the literal: entry `(i, j)` is component `i` of column `j`). -/
def lookToRh (eye dir up : V3) : Mat4 :=
  let f := normalizeV dir
  let s := normalizeV (crossV f up)
  let u := crossV s f
  !![s.x, s.y, s.z, -(dotV eye s);
     u.x, u.y, u.z, -(dotV eye u);
     -f.x, -f.y, -f.z, dotV eye f;
     0, 0, 0, 1]

/-- `Mat4::perspective_rh(fov_y, aspect, z_near, z_far)` per glam. -/
def perspectiveRh (fovY aspect zNear zFar : ℝ) : Mat4 :=
  let sinFov := Real.sin (0.5 * fovY)
  let cosFov := Real.cos (0.5 * fovY)
  let h := cosFov / sinFov
  let w := h / aspect
  let r := zFar / (zNear - zFar)
  !![w, 0, 0, 0;
     0, h, 0, 0;
     0, 0, r, r * zNear;
     0, 0, -1, 0]

/-- `Camera::aspect_ratio`. -/
def aspectRatio (c : Camera) : ℝ := (c.width : ℝ) / (c.height : ℝ)

/-- `Camera::compute_ray_directions`: build the view and projection
matrices, invert both, and for every pixel (row-major, `y` outermost)
unproject the jitter-free screen coordinate through the inverse projection
and inverse view, keeping only the direction (`w = 0`). -/
def computeRayDirections (c : Camera) : List V3 :=
  let vUp : V3 := ⟨0, 1, 0⟩
  let view := lookToRh c.position c.lookDirection vUp
  let viewInverse := view⁻¹
  let projection :=
    perspectiveRh (c.verticalFov * (Real.pi / 180)) (aspectRatio c) c.clipLo c.clipHi
  let projectionInverse := projection⁻¹
  (List.range c.height).flatMap fun y =>
    (List.range c.width).map fun x =>
      let coordX := ((x : ℝ) / (c.width : ℝ)) * 2 - 1
      let coordY := ((y : ℝ) / (c.height : ℝ)) * 2 - 1
      let target := Matrix.mulVec projectionInverse ![coordX, coordY, 1, 1]
      let scaled := normalizeV ⟨target 0 / target 3, target 1 / target 3, target 2 / target 3⟩
      let direction := Matrix.mulVec viewInverse ![scaled.x, scaled.y, scaled.z, 0]
      (⟨direction 0, direction 1, direction 2⟩ : V3)

/-- `Camera::clear_ray_cache`. -/
def clearRayCache (c : Camera) : Camera := { c with cachedDirections := none }

/-- `Camera::set_position`: a plain field write; the cache is untouched. -/
def setPosition (c : Camera) (position : V3) : Camera := { c with position := position }

/-- `Camera::set_look_direction`: normalize the argument (silently
ignoring degenerate vectors); when the normalized direction differs from
the current one, store it and clear the direction cache. -/
def setLookDirection (c : Camera) (lookDirection : V3) : Camera :=
  match tryNormalize lookDirection with
  | some normalized =>
    if normalized ≠ c.lookDirection then
      { c with lookDirection := normalized, cachedDirections := none }
    else c
  | none => c

/-- `Camera::set_vertical_fov`: store and clear the cache when changed. -/
def setVerticalFov (c : Camera) (verticalFov : ℝ) : Camera :=
  if c.verticalFov ≠ verticalFov then
    { c with verticalFov := verticalFov, cachedDirections := none }
  else c

/-- `Camera::set_size`: store and clear the cache when changed. -/
def setSize (c : Camera) (width height : ℕ) : Camera :=
  if c.width ≠ width ∨ c.height ≠ height then
    { c with width := width, height := height, cachedDirections := none }
  else c

/-- `Camera::get_ray_directions` / `map_ray_directions`: serve the cached
directions, computing and caching them first when the cache is empty. -/
def getRayDirections (c : Camera) : List V3 × Camera :=
  match c.cachedDirections with
  | some dirs => (dirs, c)
  | none =>
    let dirs := computeRayDirections c
    (dirs, { c with cachedDirections := some dirs })


/-- Specification of the value computed by the `closest` fold of
`trace_ray`: merge an optional running minimum with a list of candidate
distances, keeping the smallest. -/
def minMerge : Option ℝ → List ℝ → Option ℝ
  | acc, [] => acc
  | none, t :: ts => minMerge (some t) ts
  | some m, t :: ts => minMerge (some (min m t)) ts

/-- Modelled from the spec (claim C2): the root-selection policy the claim
asserts — accept the smaller root when in the clip range, otherwise try
the larger root, and report a miss only when neither is in range.  This
definition exists only to be compared with `sphereCandidate`, the test the
renderer actually performs. -/
def specRootPolicy (lo hi : ℝ) (ray : RayR) (s : Sphere) : Option ℝ :=
  let offsetCenter := ray.origin - s.center
  let a := normSq ray.direction
  let b := 2 * dotV ray.direction offsetCenter
  let c := normSq offsetCenter - s.radius ^ 2
  let discrim := b ^ 2 - 4 * a * c
  if discrim < 0 then none
  else
    let t0 := (-b - Real.sqrt discrim) / (2 * a)
    let t1 := (-b + Real.sqrt discrim) / (2 * a)
    if inClip lo hi t0 then some t0
    else if inClip lo hi t1 then some t1
    else none

/-- The orientation contract of `check_hit_sphere`: the returned normal
points against the incoming ray, and the hit is marked `Back` exactly when
the outward geometric normal (the normalized vector from the sphere center
to the hit position) pointed along the ray and had to be flipped. -/
def backFaceOk (s : Sphere) (ray : RayR) : HitPayload → Prop
  | .Hit _ worldNormal worldPosition _ side =>
      dotV ray.direction worldNormal ≤ 0 ∧
      (side = .Back ↔ 0 < dotV ray.direction (normalizeV (worldPosition - s.center))) ∧
      (side = .Back → worldNormal = -(normalizeV (worldPosition - s.center))) ∧
      (side = .Front → worldNormal = normalizeV (worldPosition - s.center))
  | _ => True

/-- The orientation contract of the renderer's `on_hit` payload: the
returned world normal does not point along the incoming ray. -/
def rendererNormalOk (d : V3) : RHitPayload → Prop
  | .Hit worldNormal _ _ => dotV d worldNormal ≤ 0
  | .Miss => True

/-! ## Evaluation helpers -/

/-- Unfolding lemma for `radInvGo` stated with numeral-friendly
conditions. -/
lemma radInvGo_eval (b fuel i : ℕ) (f r : ℚ) (hf : fuel ≠ 0) :
    radInvGo b fuel i f r =
      if i = 0 then r
      else radInvGo b (fuel - 1) (i / b) (f / b) (r + (f / b) * ((i % b : ℕ) : ℚ)) := by
  cases fuel with
  | zero => exact absurd rfl hf
  | succ fuel =>
    cases i with
    | zero => simp [radInvGo]
    | succ i => simp [radInvGo]

/-- Base case of `radInvGo`. -/
lemma radInvGo_zero (b i : ℕ) (f r : ℚ) : radInvGo b 0 i f r = r := rfl

/-- Unfolding lemma for `haltonOutputs`. -/
lemma haltonOutputs_eval (h : Halton) (n : ℕ) (hn : n ≠ 0) :
    haltonOutputs h n = h.next.1 :: haltonOutputs h.next.2 (n - 1) := by
  cases n with
  | zero => exact absurd rfl hn
  | succ n => simp [haltonOutputs]

/-- Base case of `haltonOutputs`. -/
lemma haltonOutputs_zero (h : Halton) : haltonOutputs h 0 = [] := rfl

/-- The exact base-2 outputs of the sampler started at counter 1. -/
lemma halton_base2_values : haltonOutputs (Halton.new 2) 9 =
    [1/2, 1/4, 3/4, 1/8, 5/8, 3/8, 7/8, 1/16, 9/16] := by
  norm_num [haltonOutputs_eval, haltonOutputs_zero, Halton.next, Halton.new,
    radicalInverse, radInvGo_eval, radInvGo_zero]

/-- The exact base-3 outputs of the sampler started at counter 1. -/
lemma halton_base3_values : haltonOutputs (Halton.new 3) 8 =
    [1/3, 2/3, 1/9, 4/9, 7/9, 2/9, 5/9, 8/9] := by
  norm_num [haltonOutputs_eval, haltonOutputs_zero, Halton.next, Halton.new,
    radicalInverse, radInvGo_eval, radInvGo_zero]

/-- The first draw the 2-D sampler with bases (2, 3) exposes after its
burn-in of `2 * 3` draws. -/
lemma halton_two_d_first : (Halton.two_d 2 3).next.1 = (7/8, 5/9) := by
  norm_num [Halton.two_d, Halton2.next, Halton.next, Halton.new,
    Function.iterate_succ_apply, Function.iterate_zero_apply,
    radicalInverse, radInvGo_eval, radInvGo_zero]

/-! ## C3: radical-inverse golden values -/

/-- C3: the radical-inverse sampler with base 2, starting from counter 1,
yields 1/2, 1/4, 3/4, 1/8, 5/8, 3/8, 7/8, 1/16, 9/16, and with base 3 it
yields 1/3, 2/3, 1/9, 4/9, 7/9, 2/9, 5/9, 8/9, each within 1e-3 of the
golden value (the model computes them exactly). -/
theorem C3_radical_inverse_golden :
    List.Forall₂ (fun a g : ℚ => |a - g| ≤ 1 / 1000)
      (haltonOutputs (Halton.new 2) 9)
      [1/2, 1/4, 3/4, 1/8, 5/8, 3/8, 7/8, 1/16, 9/16] ∧
    List.Forall₂ (fun a g : ℚ => |a - g| ≤ 1 / 1000)
      (haltonOutputs (Halton.new 3) 8)
      [1/3, 2/3, 1/9, 4/9, 7/9, 2/9, 5/9, 8/9] := by
  rw [halton_base2_values, halton_base3_values]
  refine ⟨?_, ?_⟩ <;>
    · simp only [List.forall₂_cons, List.Forall₂.nil, and_true]
      norm_num

/-! ## C9: pixel packing -/

/-- Or-ing a shifted value with a small value is addition. -/
lemma mul_pow_lor_eq_add (a : ℕ) {b k : ℕ} (hb : b < 2 ^ k) :
    ((a * 2 ^ k) ||| b) = a * 2 ^ k + b := by
  apply Nat.eq_of_testBit_eq
  intro i
  rw [Nat.testBit_or]
  rcases Nat.lt_or_ge i k with hik | hik
  · have hpow : (2 : ℕ) ^ k = 2 ^ i * 2 ^ (k - i) := by
      rw [← pow_add]; congr 1; omega
    have hsplit : a * 2 ^ k = 2 ^ i * (a * 2 ^ (k - i)) := by rw [hpow]; ring
    have heven : a * 2 ^ (k - i) % 2 = 0 := by
      rw [show k - i = (k - i - 1) + 1 by omega, pow_succ, ← mul_assoc]
      exact Nat.mul_mod_left _ 2
    have h1 : Nat.testBit (a * 2 ^ k) i = false := by
      rw [Nat.testBit_to_div_mod, hsplit, Nat.mul_div_cancel_left _ (Nat.two_pow_pos i)]
      simp [heven]
    have h2 : Nat.testBit (a * 2 ^ k + b) i = Nat.testBit b i := by
      rw [hsplit, Nat.testBit_mul_two_pow_add_eq, heven]
      simp
    rw [h1, h2, Bool.false_or]
  · have hbf : Nat.testBit b i = false :=
      Nat.testBit_lt_two_pow (lt_of_lt_of_le hb (Nat.pow_le_pow_right (by norm_num) hik))
    have hdiv : (a * 2 ^ k + b) / 2 ^ i = (a * 2 ^ k) / 2 ^ i := by
      rw [show (2:ℕ) ^ i = 2 ^ k * 2 ^ (i - k) by rw [← pow_add]; congr 1; omega]
      rw [← Nat.div_div_eq_div_mul, ← Nat.div_div_eq_div_mul]
      congr 1
      rw [mul_comm a, Nat.mul_add_div (Nat.two_pow_pos k), Nat.div_eq_of_lt hb,
        Nat.mul_div_cancel_left _ (Nat.two_pow_pos k)]
      omega
    rw [hbf, Bool.or_false, Nat.testBit_to_div_mod, Nat.testBit_to_div_mod, hdiv]

/-- The four-byte pack used by `color_rgba` equals its arithmetic sum. -/
lemma pack_bytes (A B G R : ℕ) (hB : B ≤ 255) (hG : G ≤ 255) (hR : R ≤ 255) :
    ((((A <<< 24) ||| (B <<< 16)) ||| (G <<< 8)) ||| R) =
      A * 2 ^ 24 + B * 2 ^ 16 + G * 2 ^ 8 + R := by
  rw [Nat.shiftLeft_eq, Nat.shiftLeft_eq, Nat.shiftLeft_eq,
    Nat.or_assoc, Nat.or_assoc]
  have h1 : ((G * 2 ^ 8) ||| R) = G * 2 ^ 8 + R :=
    mul_pow_lor_eq_add G (by omega)
  have h2 : ((B * 2 ^ 16) ||| (G * 2 ^ 8 + R)) = B * 2 ^ 16 + (G * 2 ^ 8 + R) :=
    mul_pow_lor_eq_add B (by nlinarith)
  have h3 : ((A * 2 ^ 24) ||| (B * 2 ^ 16 + (G * 2 ^ 8 + R))) =
      A * 2 ^ 24 + (B * 2 ^ 16 + (G * 2 ^ 8 + R)) :=
    mul_pow_lor_eq_add A (by nlinarith)
  rw [h1, h2, h3]
  ring

/-- A clamped channel is non-negative. -/
lemma clampQ_nonneg (x : ℚ) : 0 ≤ clampQ x 0 1 := le_min (le_max_right x 0) zero_le_one

/-- A clamped channel is at most one. -/
lemma clampQ_le_one (x : ℚ) : clampQ x 0 1 ≤ 1 := min_le_right _ _

/-- Every packed channel byte fits in `0..=255`. -/
lemma chanByte_le (x : ℚ) : chanByte x ≤ 255 := by
  unfold chanByte ratToU32
  have h1 : clampQ x 0 1 * 255 ≤ 255 := by nlinarith [clampQ_le_one x]
  have h2 : Int.floor (clampQ x 0 1 * 255) ≤ (255 : ℤ) := by
    calc Int.floor (clampQ x 0 1 * 255) ≤ Int.floor (255 : ℚ) := Int.floor_le_floor h1
    _ = 255 := by norm_num
  exact Int.toNat_le.mpr h2

/-- `color_rgba` in arithmetic form. -/
lemma colorRgba_eq (c : Q4) :
    color_rgba c =
      chanByte c.w * 2 ^ 24 + chanByte c.z * 2 ^ 16 + chanByte c.y * 2 ^ 8 + chanByte c.x := by
  show ((((chanByte c.w <<< 24) ||| (chanByte c.z <<< 16)) ||| (chanByte c.y <<< 8)) |||
      chanByte c.x) = _
  exact pack_bytes _ _ _ _ (chanByte_le _) (chanByte_le _) (chanByte_le _)

/-- A fully saturated channel packs to byte 255. -/
lemma chanByte_one : chanByte 1 = 255 := by
  unfold chanByte ratToU32 clampQ
  norm_num
  rfl

/-- The alpha byte of every `color_rgb` pixel is 255. -/
lemma color_rgb_alpha (v : Q3) : color_rgb v / 2 ^ 24 = 255 := by
  have h := colorRgba_eq (v.extend 1)
  have hw : (v.extend 1).w = 1 := rfl
  rw [hw, chanByte_one] at h
  show color_rgba (v.extend 1) / 2 ^ 24 = 255
  rw [h]
  have hlow : chanByte (v.extend 1).z * 2 ^ 16 + chanByte (v.extend 1).y * 2 ^ 8 +
      chanByte (v.extend 1).x < 2 ^ 24 := by
    have h1 := chanByte_le (v.extend 1).z
    have h2 := chanByte_le (v.extend 1).y
    have h3 := chanByte_le (v.extend 1).x
    nlinarith
  omega

/-- C9: every packed output pixel equals `A<<24 | B<<16 | G<<8 | R` with
each channel clamped to `[0,1]` and scaled to the byte range `0..=255`,
and the alpha byte of every pixel produced by the output packing pass of
`render_accumulate` is 255 (fully opaque). -/
theorem C9_pixel_packing :
    (∀ c : Q4, color_rgba c =
        chanByte c.w * 2 ^ 24 + chanByte c.z * 2 ^ 16 + chanByte c.y * 2 ^ 8 + chanByte c.x) ∧
    (∀ x : ℚ, chanByte x ≤ 255) ∧
    (∀ v : Q3, color_rgb v / 2 ^ 24 = 255) ∧
    (∀ (acc : List Q3) (fc : ℚ), ∀ p ∈ packPass acc fc, p / 2 ^ 24 = 255) := by
  refine ⟨colorRgba_eq, chanByte_le, color_rgb_alpha, ?_⟩
  intro acc fc p hp
  obtain ⟨v, -, rfl⟩ := List.mem_map.mp hp
  exact color_rgb_alpha _

/-- Witness for C9 at a concrete accumulation buffer and frame count. -/
theorem C9_pixel_packing_witness :
    color_rgb ⟨1/2, 3, -1⟩ ∈ packPass [⟨1, 6, -2⟩] 2 ∧
      color_rgb ⟨1/2, 3, -1⟩ / 2 ^ 24 = 255 := by
  have hm : color_rgb ⟨1/2, 3, -1⟩ ∈ packPass [⟨1, 6, -2⟩] 2 := by
    simp only [packPass, Q3.divScalar, List.map_cons, List.map_nil, List.mem_singleton]
    norm_num
  exact ⟨hm, C9_pixel_packing.2.2.2 [⟨1, 6, -2⟩] 2 _ hm⟩

/-! ## C8: resize semantics -/

/-- `Vec::resize` always yields the requested length. -/
lemma listResize_length {α : Type} (l : List α) (n : ℕ) (v : α) :
    (listResize l n v).length = n := by
  simp [listResize]
  omega

/-- C8: `resize(width, height)` is a no-op when the dimensions equal the
current ones; otherwise it resets the frame counter to 0 and leaves both
the accumulation buffer and the output buffer with length
`new_width * new_height`. -/
theorem C8_resize_semantics :
    ∀ (r : RendererState) (w h : ℕ),
      ((r.width, r.height) = (w, h) → rendererResize r w h = r) ∧
      ((r.width, r.height) ≠ (w, h) →
        (rendererResize r w h).frameCount = 0 ∧
        (rendererResize r w h).width = w ∧
        (rendererResize r w h).height = h ∧
        (rendererResize r w h).accumulation.length = w * h ∧
        (rendererResize r w h).imageData.length = w * h) := by
  intro r w h
  constructor
  · intro heq
    simp [rendererResize, heq]
  · intro hne
    simp only [rendererResize, if_pos hne]
    exact ⟨rfl, rfl, rfl,
      by simp [resetAccumulation, RendererState.imageLen, listResize_length],
      by simp [resetAccumulation, RendererState.imageLen, listResize_length]⟩

/-- Witness for C8: a concrete 1×1 renderer state with 5 accumulated
frames resized to 2×3. -/
theorem C8_resize_semantics_witness :
    (((⟨[7], [⟨1, 2, 3⟩], 5, 1, 1, true⟩ : RendererState).width,
        (⟨[7], [⟨1, 2, 3⟩], 5, 1, 1, true⟩ : RendererState).height) ≠ (2, 3)) ∧
      ((rendererResize ⟨[7], [⟨1, 2, 3⟩], 5, 1, 1, true⟩ 2 3).frameCount = 0 ∧
        (rendererResize ⟨[7], [⟨1, 2, 3⟩], 5, 1, 1, true⟩ 2 3).width = 2 ∧
        (rendererResize ⟨[7], [⟨1, 2, 3⟩], 5, 1, 1, true⟩ 2 3).height = 3 ∧
        (rendererResize ⟨[7], [⟨1, 2, 3⟩], 5, 1, 1, true⟩ 2 3).accumulation.length = 2 * 3 ∧
        (rendererResize ⟨[7], [⟨1, 2, 3⟩], 5, 1, 1, true⟩ 2 3).imageData.length = 2 * 3) := by
  have hne : (((⟨[7], [⟨1, 2, 3⟩], 5, 1, 1, true⟩ : RendererState).width,
      (⟨[7], [⟨1, 2, 3⟩], 5, 1, 1, true⟩ : RendererState).height) ≠ ((2 : ℕ), (3 : ℕ))) := by
    decide
  exact ⟨hne, (C8_resize_semantics ⟨[7], [⟨1, 2, 3⟩], 5, 1, 1, true⟩ 2 3).2 hne⟩

/-! ## C1: the camera applies no jitter -/

/-- Indexing a mapped range at an in-bounds position. -/
lemma range_map_getD {α : Type} (f : ℕ → α) (w x : ℕ) (d : α) (hx : x < w) :
    ((List.range w).map f).getD x d = f x := by
  rw [List.getD_eq_getElem?_getD, List.getElem?_map, List.getElem?_range hx]
  rfl

/-- Length of a row-major grid built by nested range loops. -/
lemma flatGrid_length {α : Type} (g : ℕ → ℕ → α) (w h : ℕ) :
    (((List.range h).flatMap fun y => (List.range w).map fun x => g x y)).length = h * w := by
  induction h with
  | zero => simp
  | succ h ih =>
    rw [List.range_succ, List.flatMap_append, List.length_append, ih]
    simp [Nat.succ_mul]

/-- Indexing a row-major grid at flat index `y * w + x`. -/
lemma flatGrid_getD {α : Type} (g : ℕ → ℕ → α) (w h x y : ℕ) (d : α)
    (hx : x < w) (hy : y < h) :
    (((List.range h).flatMap fun y => (List.range w).map fun x => g x y)).getD
      (y * w + x) d = g x y := by
  induction h with
  | zero => omega
  | succ h ih =>
    rw [List.range_succ, List.flatMap_append]
    rcases Nat.lt_or_ge y h with hyh | hyh
    · rw [List.getD_append]
      · exact ih hyh
      · rw [flatGrid_length]
        calc y * w + x < y * w + w := by omega
        _ ≤ h * w := by nlinarith
    · have hy' : y = h := by omega
      subst hy'
      rw [List.getD_append_right]
      · rw [flatGrid_length, show y * w + x - y * w = x by omega]
        simp only [List.flatMap_cons, List.flatMap_nil, List.append_nil]
        exact range_map_getD _ _ _ _ hx
      · rw [flatGrid_length]
        omega

/-- C1 (amended): `compute_ray_directions` draws no jitter sample at all.
The coordinate grid it feeds to the unprojection is row-major with pixel
`(x, y)` at flat index `y * w + x`, and the coordinate of every pixel is
exactly `(x/w, y/h) * 2 - 1`, a pure function of the pixel and image size
with no jitter term. -/
theorem C1_no_jitter_in_ndc (w h x y : ℕ) (hx : x < w) (hy : y < h) :
    (cameraNdcGrid w h).length = w * h ∧
    (cameraNdcGrid w h).getD (y * w + x) (0, 0) = cameraNdc w h x y := by
  constructor
  · rw [cameraNdcGrid, flatGrid_length, Nat.mul_comm]
  · exact flatGrid_getD _ w h x y _ hx hy

/-- Witness for C1 at pixel (1, 1) of a 2×2 frame. -/
theorem C1_no_jitter_in_ndc_witness :
    ((1 : ℕ) < 2 ∧ (1 : ℕ) < 2) ∧
      ((cameraNdcGrid 2 2).length = 2 * 2 ∧
        (cameraNdcGrid 2 2).getD (1 * 2 + 1) (0, 0) = cameraNdc 2 2 1 1) :=
  ⟨⟨by norm_num, by norm_num⟩, C1_no_jitter_in_ndc 2 2 1 1 (by norm_num) (by norm_num)⟩

/-- Counterexample to C1 as stated: at pixel (0, 0) of a 2×2 frame the
camera uses the coordinate `(-1, -1)`, but the claim requires the shared
jitter sample to be added (offset by −0.5) to that coordinate, and with
the first draw the code's own 2-D sampler would supply — `(7/8, 5/9)` —
the claimed coordinate differs from the one the code computes. -/
theorem C1_counterexample :
    (cameraNdcGrid 2 2).getD (0 * 2 + 0) (0, 0) = (-1, -1) ∧
    specJitteredNdc (Halton.two_d 2 3).next.1 2 2 0 0 ≠ (-1, -1) := by
  constructor
  · rw [cameraNdcGrid, flatGrid_getD _ 2 2 0 0 _ (by norm_num) (by norm_num)]
    simp only [cameraNdc, Prod.mk.injEq]
    norm_num
  · rw [halton_two_d_first]
    simp only [specJitteredNdc, cameraNdc, ne_eq, Prod.mk.injEq, not_and]
    norm_num

/-! ## Component lemmas for real vectors -/

/-- Componentwise subtraction, unfolded. -/
lemma V3.sub_def (a b : V3) : a - b = ⟨a.x - b.x, a.y - b.y, a.z - b.z⟩ := rfl

/-- Componentwise addition, unfolded. -/
lemma V3.add_def (a b : V3) : a + b = ⟨a.x + b.x, a.y + b.y, a.z + b.z⟩ := rfl

/-- Componentwise negation, unfolded. -/
lemma V3.neg_def (a : V3) : -a = ⟨-a.x, -a.y, -a.z⟩ := rfl

/-- Componentwise scaling, unfolded. -/
lemma V3.smul_def (r : ℝ) (a : V3) : r • a = ⟨r * a.x, r * a.y, r * a.z⟩ := rfl

/-- The zero vector, unfolded. -/
lemma V3.zero_def : (0 : V3) = ⟨0, 0, 0⟩ := rfl

/-! ## C4: mutators and the direction cache -/

/-- C4 (amended): `set_look_direction`, `set_vertical_fov` and `set_size`
each clear the cached ray directions whenever they change the camera
state, and an empty cache makes the next `get_ray_directions` recompute
from the current state; `set_position`, however, leaves the cache exactly
as it was. -/
theorem C4_mutator_cache (c : Camera) (p l n : V3) (fov : ℝ) (w h : ℕ) :
    (tryNormalize l = some n → n ≠ c.lookDirection →
      (setLookDirection c l).cachedDirections = none) ∧
    (c.verticalFov ≠ fov → (setVerticalFov c fov).cachedDirections = none) ∧
    (c.width ≠ w ∨ c.height ≠ h → (setSize c w h).cachedDirections = none) ∧
    ((setPosition c p).cachedDirections = c.cachedDirections) ∧
    (c.cachedDirections = none → getRayDirections c = (computeRayDirections c,
      { c with cachedDirections := some (computeRayDirections c) })) := by
  refine ⟨?_, ?_, ?_, rfl, ?_⟩
  · intro hnorm hne
    rw [setLookDirection, hnorm]
    simp [if_pos hne]
  · intro hne
    rw [setVerticalFov, if_pos hne]
  · intro hne
    rw [setSize, if_pos hne]
  · intro hnone
    rw [getRayDirections, hnone]

/-- Counterexample to C4 as stated: populate the default camera's cache,
mutate its position with `set_position`, and observe that the cache still
holds the directions computed from the old state — `set_position` did
not invalidate them, and the next `get_ray_directions` serves them
unchanged instead of recomputing. -/
theorem C4_counterexample :
    ((getRayDirections defaultCamera).2.cachedDirections =
        some (computeRayDirections defaultCamera)) ∧
    ((setPosition (getRayDirections defaultCamera).2 ⟨5, 5, 5⟩).cachedDirections =
        some (computeRayDirections defaultCamera)) ∧
    ((setPosition (getRayDirections defaultCamera).2 ⟨5, 5, 5⟩).position ≠
        defaultCamera.position) ∧
    ((getRayDirections (setPosition (getRayDirections defaultCamera).2 ⟨5, 5, 5⟩)).1 =
        computeRayDirections defaultCamera) := by
  refine ⟨rfl, rfl, ?_, rfl⟩
  show (⟨5, 5, 5⟩ : V3) ≠ ⟨0, 0, 3⟩
  intro heq
  have hx : (5 : ℝ) = 0 := congrArg V3.x heq
  norm_num at hx

/-- Witness for C4: the default camera with concrete mutator arguments
that change each piece of state. -/
theorem C4_mutator_cache_witness :
    (tryNormalize ⟨0, 0, 1⟩ = some ⟨0, 0, 1⟩ ∧
      (⟨0, 0, 1⟩ : V3) ≠ defaultCamera.lookDirection ∧
      defaultCamera.verticalFov ≠ 30 ∧
      (defaultCamera.width ≠ 3 ∨ defaultCamera.height ≠ 480) ∧
      defaultCamera.cachedDirections = none) ∧
    ((setLookDirection defaultCamera ⟨0, 0, 1⟩).cachedDirections = none ∧
      (setVerticalFov defaultCamera 30).cachedDirections = none ∧
      (setSize defaultCamera 3 480).cachedDirections = none ∧
      (setPosition defaultCamera ⟨5, 5, 5⟩).cachedDirections = defaultCamera.cachedDirections ∧
      getRayDirections defaultCamera = (computeRayDirections defaultCamera,
        { defaultCamera with cachedDirections := some (computeRayDirections defaultCamera) })) := by
  have hnorm : tryNormalize ⟨0, 0, 1⟩ = some ⟨0, 0, 1⟩ := by
    rw [tryNormalize]
    have hlen : vlen ⟨0, 0, 1⟩ = 1 := by
      rw [vlen, normSq]
      norm_num
    rw [if_pos (by rw [hlen]; norm_num)]
    rw [normalizeV, hlen]
    norm_num [V3.smul_def]
  have hlook : (⟨0, 0, 1⟩ : V3) ≠ defaultCamera.lookDirection := by
    intro heq
    have hz : (1 : ℝ) = -1 := congrArg V3.z heq
    norm_num at hz
  have hfov : defaultCamera.verticalFov ≠ 30 := by
    show (25 : ℝ) ≠ 30
    norm_num
  have hsize : defaultCamera.width ≠ 3 ∨ defaultCamera.height ≠ 480 := by
    left
    show (640 : ℕ) ≠ 3
    norm_num
  obtain ⟨h1, h2, h3, h4, h5⟩ :=
    C4_mutator_cache defaultCamera ⟨5, 5, 5⟩ ⟨0, 0, 1⟩ ⟨0, 0, 1⟩ 30 3 480
  exact ⟨⟨hnorm, hlook, hfov, hsize, rfl⟩,
    h1 hnorm hlook, h2 hfov, h3 hsize, h4, h5 rfl⟩

/-! ## C10: rays starting inside a sphere are absorbed -/

/-- C10: for a ray whose origin lies strictly inside the sphere,
`check_hit` reports `Inside` (the quadratic branch is never reached), and
`Material::scatter` returns `None` on an `Inside` payload for every
material, absorbing the ray. -/
theorem C10_inside_absorbed (s : Sphere) (ray : RayR) (lo hi : ℝ)
    (hin : vlen (ray.origin - s.center) < s.radius) :
    checkHitSphere s ray lo hi = HitPayload.Inside ∧
    (∀ (m : MaterialM) (r2 : RayR) (u : V3), scatterM m HitPayload.Inside r2 u = none) := by
  constructor
  · rw [checkHitSphere]
    simp only [if_pos hin]
  · intro m r2 u
    cases m <;> rfl

/-- Witness for C10: a ray starting at the center of the unit sphere. -/
theorem C10_inside_absorbed_witness :
    vlen ((⟨⟨0, 0, 0⟩, ⟨0, 0, 1⟩⟩ : RayR).origin - (⟨⟨0, 0, 0⟩, 1, 0⟩ : Sphere).center) <
        (⟨⟨0, 0, 0⟩, 1, 0⟩ : Sphere).radius ∧
      (checkHitSphere ⟨⟨0, 0, 0⟩, 1, 0⟩ ⟨⟨0, 0, 0⟩, ⟨0, 0, 1⟩⟩ (1/100) 100 =
          HitPayload.Inside ∧
        (∀ (m : MaterialM) (r2 : RayR) (u : V3),
          scatterM m HitPayload.Inside r2 u = none)) := by
  have hin : vlen ((⟨⟨0, 0, 0⟩, ⟨0, 0, 1⟩⟩ : RayR).origin -
      (⟨⟨0, 0, 0⟩, 1, 0⟩ : Sphere).center) < (⟨⟨0, 0, 0⟩, 1, 0⟩ : Sphere).radius := by
    show vlen ((⟨0, 0, 0⟩ : V3) - ⟨0, 0, 0⟩) < 1
    rw [V3.sub_def, vlen, normSq]
    norm_num
  exact ⟨hin, C10_inside_absorbed _ _ (1/100) 100 hin⟩

/-! ## C7: the bounce budget -/

/-- C7: `per_pixel` traces with a bounce budget of 16; an exhausted budget
returns black; and the instrumented twin of the trace loop shows the
color agrees with `ray_color` while the number of scatter steps performed
never exceeds the budget — the budget strictly decreases at each bounce,
which is exactly the structural-recursion termination argument of the
model's `rayColor`. -/
theorem C7_bounce_budget (sc : SceneR) (lo hi : ℝ) (rng : ℕ → V3) :
    (∀ ray, perPixel sc lo hi rng ray = rayColor sc lo hi rng 16 ray 0) ∧
    (∀ ray k, rayColor sc lo hi rng 0 ray k = ⟨0, 0, 0⟩) ∧
    (∀ budget ray k,
      (rayColorCount sc lo hi rng budget ray k).1 = rayColor sc lo hi rng budget ray k ∧
      (rayColorCount sc lo hi rng budget ray k).2 ≤ budget) := by
  refine ⟨fun ray => rfl, fun ray k => rfl, ?_⟩
  intro budget
  induction budget with
  | zero => exact fun ray k => ⟨rfl, le_refl 0⟩
  | succ b ih =>
    intro ray k
    simp only [rayColor, rayColorCount]
    cases htr : traceRay lo hi ray sc.spheres with
    | Miss => simp [htr]
    | Hit wn wp oi =>
      simp only [htr]
      constructor
      · exact congrArg (fun v => vmul v _) (ih _ _).1
      · have := (ih (⟨wp + (1/10000 : ℝ) •
          reflectV (-ray.direction)
            (tryNormalizeOr (wn + (sc.material (sc.sphere oi).materialIndex).roughness • rng k) wn),
          reflectV (-ray.direction)
            (tryNormalizeOr (wn + (sc.material (sc.sphere oi).materialIndex).roughness • rng k) wn)⟩ : RayR)
          (k + 1)).2
        omega

/-! ## The nearest-hit fold of trace_ray -/

/-- The distance component of the `closest` fold equals the running
minimum of the in-range candidate distances. -/
lemma traceLoop_snd (lo hi : ℝ) (ray : RayR) :
    ∀ (l : List Sphere) (i : ℕ) (acc : Option (ℕ × ℝ)),
      (traceLoop lo hi ray l i acc).map Prod.snd =
        minMerge (acc.map Prod.snd) (l.filterMap (sphereCandidate lo hi ray)) := by
  intro l
  induction l with
  | nil => intro i acc; simp [traceLoop, minMerge]
  | cons s rest ih =>
    intro i acc
    rw [traceLoop]
    cases hc : sphereCandidate lo hi ray s with
    | none =>
      rw [List.filterMap_cons_none hc]
      simpa [closestStep, hc] using ih (i + 1) acc
    | some t =>
      rw [List.filterMap_cons_some hc]
      cases acc with
      | none =>
        simp only [closestStep, hc, Option.map_none, minMerge]
        exact ih (i + 1) (some (i, t))
      | some p =>
        obtain ⟨j, m⟩ := p
        by_cases hlt : t < m
        · simp only [closestStep, hc, Option.map_some, minMerge]
          rw [min_eq_right (le_of_lt hlt), if_pos hlt]
          simpa using ih (i + 1) (some (i, t))
        · simp only [closestStep, hc, Option.map_some, minMerge]
          rw [min_eq_left (not_lt.mp hlt)]
          simpa [hlt] using ih (i + 1) (some (j, m))

/-- `minMerge` returns `none` only when it had nothing to merge, and any
value it returns is a member of its inputs bounding all of them below. -/
lemma minMerge_spec : ∀ (l : List ℝ) (acc : Option ℝ),
    (minMerge acc l = none ↔ (acc = none ∧ l = [])) ∧
    (∀ t, minMerge acc l = some t →
      (acc = some t ∨ t ∈ l) ∧ (∀ m, acc = some m → t ≤ m) ∧ (∀ u ∈ l, t ≤ u)) := by
  intro l
  induction l with
  | nil =>
    intro acc
    cases acc with
    | none => simp [minMerge]
    | some m =>
      refine ⟨by simp [minMerge], ?_⟩
      intro t ht
      have htm : m = t := Option.some_injective _ ht
      subst htm
      exact ⟨Or.inl rfl, fun m' hm' => le_of_eq (Option.some_injective _ hm'), by simp⟩
  | cons u ts ih =>
    intro acc
    cases acc with
    | none =>
      have hts := ih (some u)
      constructor
      · rw [show minMerge none (u :: ts) = minMerge (some u) ts from rfl]
        constructor
        · intro h
          exact absurd (hts.1.mp h).1 (by simp)
        · intro h
          exact absurd h.2 (by simp)
      · intro t ht
        rw [show minMerge none (u :: ts) = minMerge (some u) ts from rfl] at ht
        obtain ⟨hmem, hacc, hall⟩ := hts.2 t ht
        have htu : t ≤ u := hacc u rfl
        refine ⟨Or.inr ?_, fun m hm => by simp at hm, ?_⟩
        · rcases hmem with h | h
          · have hu : u = t := Option.some_injective _ h
            subst hu
            exact List.mem_cons_self _ _
          · exact List.mem_cons_of_mem _ h
        · intro v hv
          rcases List.mem_cons.mp hv with rfl | hv'
          · exact htu
          · exact hall v hv'
    | some m =>
      have hts := ih (some (min m u))
      constructor
      · rw [show minMerge (some m) (u :: ts) = minMerge (some (min m u)) ts from rfl]
        constructor
        · intro h
          exact absurd (hts.1.mp h).1 (by simp)
        · intro h
          exact absurd h.2 (by simp)
      · intro t ht
        rw [show minMerge (some m) (u :: ts) = minMerge (some (min m u)) ts from rfl] at ht
        obtain ⟨hmem, hacc, hall⟩ := hts.2 t ht
        have htmu : t ≤ min m u := hacc _ rfl
        refine ⟨?_, ?_, ?_⟩
        · rcases hmem with h | h
          · have hmin : min m u = t := Option.some_injective _ h
            rcases min_cases m u with ⟨hcase, -⟩ | ⟨hcase, -⟩
            · exact Or.inl (congrArg some (hcase.symm.trans hmin))
            · have hu : u = t := hcase.symm.trans hmin
              subst hu
              exact Or.inr (List.mem_cons_self _ _)
          · exact Or.inr (List.mem_cons_of_mem _ h)
        · intro m' hm'
          have hmm : m = m' := Option.some_injective _ hm'
          subst hmm
          exact le_trans htmu (min_le_left _ _)
        · intro v hv
          rcases List.mem_cons.mp hv with rfl | hv'
          · exact le_trans htmu (min_le_right _ _)
          · exact hall v hv'

/-- The winning index of the `closest` fold identifies the sphere whose
candidate distance was selected. -/
lemma traceLoop_index (lo hi : ℝ) (ray : RayR) :
    ∀ (l : List Sphere) (i0 : ℕ) (acc : Option (ℕ × ℝ)) (j : ℕ) (t : ℝ),
      traceLoop lo hi ray l i0 acc = some (j, t) →
      acc = some (j, t) ∨
        (∃ k, k < l.length ∧ j = i0 + k ∧
          sphereCandidate lo hi ray (l.getD k defaultSphere) = some t) := by
  intro l
  induction l with
  | nil =>
    intro i0 acc j t h
    exact Or.inl h
  | cons s rest ih =>
    intro i0 acc j t h
    rw [traceLoop] at h
    rcases ih (i0 + 1) (closestStep acc i0 (sphereCandidate lo hi ray s)) j t h with
      hstep | ⟨k, hk, hjk, hcand⟩
    · cases hc : sphereCandidate lo hi ray s with
      | none =>
        rw [hc] at hstep
        exact Or.inl hstep
      | some t0 =>
        rw [hc] at hstep
        cases acc with
        | none =>
          simp only [closestStep] at hstep
          have hpair : (i0, t0) = (j, t) := Option.some_injective _ hstep
          have hji : i0 = j := congrArg Prod.fst hpair
          have htt : t0 = t := congrArg Prod.snd hpair
          refine Or.inr ⟨0, by simp, by omega, ?_⟩
          rw [show (s :: rest).getD 0 defaultSphere = s from rfl, hc, htt]
        | some p =>
          obtain ⟨j0, m⟩ := p
          simp only [closestStep] at hstep
          by_cases hlt : t0 < m
          · rw [if_pos hlt] at hstep
            have hpair : (i0, t0) = (j, t) := Option.some_injective _ hstep
            have hji : i0 = j := congrArg Prod.fst hpair
            have htt : t0 = t := congrArg Prod.snd hpair
            refine Or.inr ⟨0, by simp, by omega, ?_⟩
            rw [show (s :: rest).getD 0 defaultSphere = s from rfl, hc, htt]
          · rw [if_neg hlt] at hstep
            exact Or.inl hstep
    · exact Or.inr ⟨k + 1, by simpa using hk, by omega, hcand⟩

/-! ## C5: the intersection resolver -/

/-- C5: for every ray, the resolver misses exactly when every sphere's
candidate test misses (a `Hit` always beats `Miss`, and all-`Miss` scenes
tie at `Miss`); any returned hit carries the smallest in-range candidate
distance of the whole scene; and that distance is independent of the
registration order of the hittables. -/
theorem C5_nearest_hit (lo hi : ℝ) (ray : RayR) (spheres spheres' : List Sphere)
    (hperm : spheres.Perm spheres') :
    (traceRay lo hi ray spheres = RHitPayload.Miss ↔
      ∀ s ∈ spheres, sphereCandidate lo hi ray s = none) ∧
    (∀ i t, traceLoop lo hi ray spheres 0 none = some (i, t) →
      (∃ s ∈ spheres, sphereCandidate lo hi ray s = some t) ∧
      (∀ s ∈ spheres, ∀ u, sphereCandidate lo hi ray s = some u → t ≤ u)) ∧
    ((traceLoop lo hi ray spheres 0 none).map Prod.snd =
      (traceLoop lo hi ray spheres' 0 none).map Prod.snd) := by
  have hsnd : ∀ l : List Sphere, (traceLoop lo hi ray l 0 none).map Prod.snd =
      minMerge none (l.filterMap (sphereCandidate lo hi ray)) := by
    intro l
    simpa using traceLoop_snd lo hi ray l 0 none
  have hloop_none : ∀ l : List Sphere, traceLoop lo hi ray l 0 none = none ↔
      ∀ s ∈ l, sphereCandidate lo hi ray s = none := by
    intro l
    constructor
    · intro h
      have h2 : minMerge none (l.filterMap (sphereCandidate lo hi ray)) = none := by
        rw [← hsnd, h]
        rfl
      have h3 := ((minMerge_spec _ none).1.mp h2).2
      exact List.filterMap_eq_nil_iff.mp h3
    · intro h
      have h3 : l.filterMap (sphereCandidate lo hi ray) = [] :=
        List.filterMap_eq_nil_iff.mpr h
      have h2 := hsnd l
      rw [h3] at h2
      simp only [minMerge] at h2
      exact Option.map_eq_none'.mp h2
  refine ⟨?_, ?_, ?_⟩
  · constructor
    · intro h
      apply (hloop_none spheres).mp
      cases hl : traceLoop lo hi ray spheres 0 none with
      | none => rfl
      | some p =>
        obtain ⟨i, t⟩ := p
        rw [traceRay, hl] at h
        simp only [onHit] at h
        exact absurd h (by intro hcon; cases hcon)
    · intro h
      rw [traceRay, (hloop_none spheres).mpr h]
  · intro i t hl
    have h2 := hsnd spheres
    rw [hl] at h2
    have h3 := (minMerge_spec _ none).2 t h2.symm
    obtain ⟨hmem, -, hall⟩ := h3
    constructor
    · rcases hmem with h | h
      · cases h
      · exact List.mem_filterMap.mp h
    · intro s hs u hu
      exact hall u (List.mem_filterMap.mpr ⟨s, hs, hu⟩)
  · have hpc : (spheres.filterMap (sphereCandidate lo hi ray)).Perm
        (spheres'.filterMap (sphereCandidate lo hi ray)) := hperm.filterMap _
    rw [hsnd, hsnd]
    cases h1 : minMerge none (spheres.filterMap (sphereCandidate lo hi ray)) with
    | none =>
      have he := ((minMerge_spec _ none).1.mp h1).2
      rw [he] at hpc
      have he' : spheres'.filterMap (sphereCandidate lo hi ray) = [] :=
        (List.Perm.nil_eq hpc).symm
      rw [he']
      rfl
    | some t =>
      cases h2 : minMerge none (spheres'.filterMap (sphereCandidate lo hi ray)) with
      | none =>
        have he := ((minMerge_spec _ none).1.mp h2).2
        rw [he] at hpc
        have he' : spheres.filterMap (sphereCandidate lo hi ray) = [] :=
          List.Perm.eq_nil hpc
        rw [he'] at h1
        simp only [minMerge] at h1
        cases h1
      | some t' =>
        obtain ⟨hm1, -, ha1⟩ := (minMerge_spec _ none).2 t h1
        obtain ⟨hm2, -, ha2⟩ := (minMerge_spec _ none).2 t' h2
        have ht : t ∈ spheres.filterMap (sphereCandidate lo hi ray) := by
          rcases hm1 with h | h
          · cases h
          · exact h
        have ht' : t' ∈ spheres'.filterMap (sphereCandidate lo hi ray) := by
          rcases hm2 with h | h
          · cases h
          · exact h
        have hle1 : t ≤ t' := ha1 t' (hpc.mem_iff.mpr ht')
        have hle2 : t' ≤ t := ha2 t (hpc.mem_iff.mp ht)
        rw [le_antisymm hle1 hle2]

/-- Witness for C5: two spheres in both registration orders. -/
theorem C5_nearest_hit_witness :
    ([⟨⟨0, 0, -1⟩, 1, 0⟩, ⟨⟨0, 0, -2⟩, 1, 1⟩] : List Sphere).Perm
        [⟨⟨0, 0, -2⟩, 1, 1⟩, ⟨⟨0, 0, -1⟩, 1, 0⟩] ∧
      ((traceRay (1/100) 100 ⟨⟨0, 0, 0⟩, ⟨0, 0, -1⟩⟩
            [⟨⟨0, 0, -1⟩, 1, 0⟩, ⟨⟨0, 0, -2⟩, 1, 1⟩] = RHitPayload.Miss ↔
          ∀ s ∈ ([⟨⟨0, 0, -1⟩, 1, 0⟩, ⟨⟨0, 0, -2⟩, 1, 1⟩] : List Sphere),
            sphereCandidate (1/100) 100 ⟨⟨0, 0, 0⟩, ⟨0, 0, -1⟩⟩ s = none) ∧
        (∀ i t, traceLoop (1/100) 100 ⟨⟨0, 0, 0⟩, ⟨0, 0, -1⟩⟩
            [⟨⟨0, 0, -1⟩, 1, 0⟩, ⟨⟨0, 0, -2⟩, 1, 1⟩] 0 none = some (i, t) →
          (∃ s ∈ ([⟨⟨0, 0, -1⟩, 1, 0⟩, ⟨⟨0, 0, -2⟩, 1, 1⟩] : List Sphere),
            sphereCandidate (1/100) 100 ⟨⟨0, 0, 0⟩, ⟨0, 0, -1⟩⟩ s = some t) ∧
          (∀ s ∈ ([⟨⟨0, 0, -1⟩, 1, 0⟩, ⟨⟨0, 0, -2⟩, 1, 1⟩] : List Sphere), ∀ u,
            sphereCandidate (1/100) 100 ⟨⟨0, 0, 0⟩, ⟨0, 0, -1⟩⟩ s = some u → t ≤ u)) ∧
        ((traceLoop (1/100) 100 ⟨⟨0, 0, 0⟩, ⟨0, 0, -1⟩⟩
            [⟨⟨0, 0, -1⟩, 1, 0⟩, ⟨⟨0, 0, -2⟩, 1, 1⟩] 0 none).map Prod.snd =
          (traceLoop (1/100) 100 ⟨⟨0, 0, 0⟩, ⟨0, 0, -1⟩⟩
            [⟨⟨0, 0, -2⟩, 1, 1⟩, ⟨⟨0, 0, -1⟩, 1, 0⟩] 0 none).map Prod.snd)) := by
  have hp : ([⟨⟨0, 0, -1⟩, 1, 0⟩, ⟨⟨0, 0, -2⟩, 1, 1⟩] : List Sphere).Perm
      [⟨⟨0, 0, -2⟩, 1, 1⟩, ⟨⟨0, 0, -1⟩, 1, 0⟩] :=
    List.Perm.swap _ _ _
  exact ⟨hp, C5_nearest_hit (1/100) 100 ⟨⟨0, 0, 0⟩, ⟨0, 0, -1⟩⟩ _ _ hp⟩

/-! ## C2: root selection policy -/

/-- C2 (amended): `Hittable::check_hit_sphere` does implement the
fallback policy — for a ray originating on or outside the sphere with
non-negative discriminant, it accepts the smaller root when in the clip
range, otherwise attempts the larger root, and reports `Miss` only when
neither root is in range.  The renderer's `trace_ray`, however, tests only
the smaller root: any candidate it accepts is the smaller root. -/
theorem C2_root_fallback (s : Sphere) (ray : RayR) (lo hi : ℝ)
    (hout : ¬ vlen (ray.origin - s.center) < s.radius)
    (hdisc : 0 ≤ dotV (ray.origin - s.center) ray.direction ^ 2 -
        normSq ray.direction * (normSq (ray.origin - s.center) - s.radius ^ 2)) :
    (hitDist (checkHitSphere s ray lo hi) =
      (let halfB := dotV (ray.origin - s.center) ray.direction
       let a := normSq ray.direction
       let sqrtd := Real.sqrt (halfB ^ 2 - a * (normSq (ray.origin - s.center) - s.radius ^ 2))
       if inClip lo hi ((-halfB - sqrtd) / a) then some ((-halfB - sqrtd) / a)
       else if inClip lo hi ((-halfB + sqrtd) / a) then some ((-halfB + sqrtd) / a)
       else none)) ∧
    (∀ t, sphereCandidate lo hi ray s = some t →
      inClip lo hi t ∧
      t = (-(2 * dotV ray.direction (ray.origin - s.center)) -
            Real.sqrt ((2 * dotV ray.direction (ray.origin - s.center)) ^ 2 -
              4 * normSq ray.direction *
                (normSq (ray.origin - s.center) - s.radius ^ 2))) /
          (2 * normSq ray.direction)) := by
  constructor
  · simp only [checkHitSphere]
    rw [if_neg hout, if_neg (not_lt.mpr hdisc)]
    by_cases hS : inClip lo hi ((-(dotV (ray.origin - s.center) ray.direction) -
        Real.sqrt (dotV (ray.origin - s.center) ray.direction ^ 2 -
          normSq ray.direction * (normSq (ray.origin - s.center) - s.radius ^ 2))) /
        normSq ray.direction)
    · simp only [if_pos hS]
      by_cases hdot : 0 < dotV ray.direction (normalizeV
          ((ray.origin + ((-(dotV (ray.origin - s.center) ray.direction) -
            Real.sqrt (dotV (ray.origin - s.center) ray.direction ^ 2 -
              normSq ray.direction * (normSq (ray.origin - s.center) - s.radius ^ 2))) /
            normSq ray.direction) • ray.direction) - s.center))
      · simp only [if_pos hdot]
        rfl
      · simp only [if_neg hdot]
        rfl
    · simp only [if_neg hS]
      by_cases hL : inClip lo hi ((-(dotV (ray.origin - s.center) ray.direction) +
        Real.sqrt (dotV (ray.origin - s.center) ray.direction ^ 2 -
          normSq ray.direction * (normSq (ray.origin - s.center) - s.radius ^ 2))) /
        normSq ray.direction)
      · simp only [if_pos hL]
        by_cases hdot : 0 < dotV ray.direction (normalizeV
            ((ray.origin + ((-(dotV (ray.origin - s.center) ray.direction) +
              Real.sqrt (dotV (ray.origin - s.center) ray.direction ^ 2 -
                normSq ray.direction * (normSq (ray.origin - s.center) - s.radius ^ 2))) /
              normSq ray.direction) • ray.direction) - s.center))
        · simp only [if_pos hdot]
          rfl
        · simp only [if_neg hdot]
          rfl
      · simp only [if_neg hL]
        rfl
  · intro t ht
    simp only [sphereCandidate] at ht
    by_cases hd : (2 * dotV ray.direction (ray.origin - s.center)) ^ 2 -
        4 * normSq ray.direction * (normSq (ray.origin - s.center) - s.radius ^ 2) < 0
    · rw [if_pos hd] at ht
      cases ht
    · rw [if_neg hd] at ht
      by_cases hc : inClip lo hi ((-(2 * dotV ray.direction (ray.origin - s.center)) -
          Real.sqrt ((2 * dotV ray.direction (ray.origin - s.center)) ^ 2 -
            4 * normSq ray.direction * (normSq (ray.origin - s.center) - s.radius ^ 2))) /
          (2 * normSq ray.direction))
      · rw [if_pos hc] at ht
        have := Option.some_injective _ ht
        exact ⟨this ▸ hc, this.symm⟩
      · rw [if_neg hc] at ht
        cases ht

/-- Witness for C2 at a ray from (0,0,3) into the unit sphere. -/
theorem C2_root_fallback_witness :
    (¬ vlen ((⟨⟨0, 0, 3⟩, ⟨0, 0, -1⟩⟩ : RayR).origin - (⟨⟨0, 0, 0⟩, 1, 0⟩ : Sphere).center) <
        (⟨⟨0, 0, 0⟩, 1, 0⟩ : Sphere).radius ∧
      0 ≤ dotV ((⟨⟨0, 0, 3⟩, ⟨0, 0, -1⟩⟩ : RayR).origin -
            (⟨⟨0, 0, 0⟩, 1, 0⟩ : Sphere).center) (⟨⟨0, 0, 3⟩, ⟨0, 0, -1⟩⟩ : RayR).direction ^ 2 -
          normSq (⟨⟨0, 0, 3⟩, ⟨0, 0, -1⟩⟩ : RayR).direction *
            (normSq ((⟨⟨0, 0, 3⟩, ⟨0, 0, -1⟩⟩ : RayR).origin -
              (⟨⟨0, 0, 0⟩, 1, 0⟩ : Sphere).center) - (⟨⟨0, 0, 0⟩, 1, 0⟩ : Sphere).radius ^ 2)) ∧
    (hitDist (checkHitSphere ⟨⟨0, 0, 0⟩, 1, 0⟩ ⟨⟨0, 0, 3⟩, ⟨0, 0, -1⟩⟩ (1/100) 100) =
      (let halfB := dotV ((⟨⟨0, 0, 3⟩, ⟨0, 0, -1⟩⟩ : RayR).origin -
          (⟨⟨0, 0, 0⟩, 1, 0⟩ : Sphere).center) (⟨⟨0, 0, 3⟩, ⟨0, 0, -1⟩⟩ : RayR).direction
       let a := normSq (⟨⟨0, 0, 3⟩, ⟨0, 0, -1⟩⟩ : RayR).direction
       let sqrtd := Real.sqrt (halfB ^ 2 - a *
          (normSq ((⟨⟨0, 0, 3⟩, ⟨0, 0, -1⟩⟩ : RayR).origin -
            (⟨⟨0, 0, 0⟩, 1, 0⟩ : Sphere).center) - (⟨⟨0, 0, 0⟩, 1, 0⟩ : Sphere).radius ^ 2))
       if inClip (1/100) 100 ((-halfB - sqrtd) / a) then some ((-halfB - sqrtd) / a)
       else if inClip (1/100) 100 ((-halfB + sqrtd) / a) then some ((-halfB + sqrtd) / a)
       else none)) := by
  have hout : ¬ vlen ((⟨⟨0, 0, 3⟩, ⟨0, 0, -1⟩⟩ : RayR).origin -
      (⟨⟨0, 0, 0⟩, 1, 0⟩ : Sphere).center) < (⟨⟨0, 0, 0⟩, 1, 0⟩ : Sphere).radius := by
    show ¬ vlen ((⟨0, 0, 3⟩ : V3) - ⟨0, 0, 0⟩) < 1
    rw [V3.sub_def, vlen, normSq]
    norm_num
  have hdisc : (0:ℝ) ≤ dotV ((⟨⟨0, 0, 3⟩, ⟨0, 0, -1⟩⟩ : RayR).origin -
        (⟨⟨0, 0, 0⟩, 1, 0⟩ : Sphere).center) (⟨⟨0, 0, 3⟩, ⟨0, 0, -1⟩⟩ : RayR).direction ^ 2 -
      normSq (⟨⟨0, 0, 3⟩, ⟨0, 0, -1⟩⟩ : RayR).direction *
        (normSq ((⟨⟨0, 0, 3⟩, ⟨0, 0, -1⟩⟩ : RayR).origin -
          (⟨⟨0, 0, 0⟩, 1, 0⟩ : Sphere).center) - (⟨⟨0, 0, 0⟩, 1, 0⟩ : Sphere).radius ^ 2) := by
    show (0:ℝ) ≤ dotV ((⟨0, 0, 3⟩ : V3) - ⟨0, 0, 0⟩) ⟨0, 0, -1⟩ ^ 2 -
      normSq ⟨0, 0, -1⟩ * (normSq ((⟨0, 0, 3⟩ : V3) - ⟨0, 0, 0⟩) - 1 ^ 2)
    rw [V3.sub_def, dotV, normSq, normSq]
    norm_num
  exact ⟨⟨hout, hdisc⟩,
    (C2_root_fallback ⟨⟨0, 0, 0⟩, 1, 0⟩ ⟨⟨0, 0, 3⟩, ⟨0, 0, -1⟩⟩ (1/100) 100 hout hdisc).1⟩

/-- The square root of four. -/
lemma sqrt_four : Real.sqrt 4 = 2 := by
  rw [show (4:ℝ) = 2 ^ 2 by norm_num, Real.sqrt_sq (by norm_num : (0:ℝ) ≤ 2)]

/-- Counterexample to C2 as stated: a ray starting at the center of the
unit sphere under the default clip range 0.01..100.  The smaller root −1
is out of range while the larger root 1 is in range, so the claimed
policy (modelled by `specRootPolicy`) accepts 1, but the renderer's
per-sphere test rejects the sphere outright and the whole trace returns
`Miss`. -/
theorem C2_counterexample :
    sphereCandidate (1/100) 100 ⟨⟨0, 0, 0⟩, ⟨0, 0, -1⟩⟩ ⟨⟨0, 0, 0⟩, 1, 0⟩ = none ∧
    specRootPolicy (1/100) 100 ⟨⟨0, 0, 0⟩, ⟨0, 0, -1⟩⟩ ⟨⟨0, 0, 0⟩, 1, 0⟩ = some 1 ∧
    traceRay (1/100) 100 ⟨⟨0, 0, 0⟩, ⟨0, 0, -1⟩⟩ [⟨⟨0, 0, 0⟩, 1, 0⟩] = RHitPayload.Miss := by
  have hcand : sphereCandidate (1/100) 100 ⟨⟨0, 0, 0⟩, ⟨0, 0, -1⟩⟩ ⟨⟨0, 0, 0⟩, 1, 0⟩ = none := by
    simp only [sphereCandidate, V3.sub_def, dotV, normSq, inClip]
    norm_num [sqrt_four]
  refine ⟨hcand, ?_, ?_⟩
  · simp only [specRootPolicy, V3.sub_def, dotV, normSq, inClip]
    norm_num [sqrt_four]
  · rw [traceRay]
    rw [show traceLoop (1/100) 100 ⟨⟨0, 0, 0⟩, ⟨0, 0, -1⟩⟩ [⟨⟨0, 0, 0⟩, 1, 0⟩] 0 none = none by
      rw [traceLoop, hcand]
      rfl]

/-! ## C6: normal orientation -/

/-- Dot product with a negated second argument. -/
lemma dotV_neg_right (a b : V3) : dotV a (-b) = -dotV a b := by
  simp only [dotV, V3.neg_def]
  ring

/-- Dot product distributes over vector addition. -/
lemma dotV_add_right (a b c : V3) : dotV a (b + c) = dotV a b + dotV a c := by
  simp only [dotV, V3.add_def]
  ring

/-- Dot product pulls out scalar factors. -/
lemma dotV_smul_right (r : ℝ) (a b : V3) : dotV a (r • b) = r * dotV a b := by
  simp only [dotV, V3.smul_def]
  ring

/-- The self dot product is the squared length. -/
lemma dotV_self (a : V3) : dotV a a = normSq a := rfl

/-- Regrouping a ray evaluation around the sphere center. -/
lemma vec_shift (o c d : V3) (t : ℝ) : o + t • d - c = (o - c) + t • d := by
  simp only [V3.add_def, V3.sub_def, V3.smul_def, V3.mk.injEq]
  refine ⟨by ring, by ring, by ring⟩

/-- Squared lengths are non-negative. -/
lemma normSq_nonneg (a : V3) : 0 ≤ normSq a := by
  simp only [normSq]
  have hx := mul_self_nonneg a.x
  have hy := mul_self_nonneg a.y
  have hz := mul_self_nonneg a.z
  linarith

/-- A nonzero vector has positive squared length. -/
lemma normSq_pos (a : V3) (ha : a ≠ 0) : 0 < normSq a := by
  rcases lt_or_eq_of_le (normSq_nonneg a) with h | h
  · exact h
  · exfalso
    apply ha
    obtain ⟨x, y, z⟩ := a
    have h' : x * x + y * y + z * z = 0 := by
      have := h.symm
      simpa [normSq] using this
    rw [V3.zero_def]
    have hx : x * x = 0 := by
      nlinarith [mul_self_nonneg x, mul_self_nonneg y, mul_self_nonneg z]
    have hy : y * y = 0 := by
      nlinarith [mul_self_nonneg x, mul_self_nonneg y, mul_self_nonneg z]
    have hz : z * z = 0 := by
      nlinarith [mul_self_nonneg x, mul_self_nonneg y, mul_self_nonneg z]
    rw [mul_self_eq_zero.mp hx, mul_self_eq_zero.mp hy, mul_self_eq_zero.mp hz]

/-- The accept branch of `check_hit_sphere` satisfies the orientation
contract whichever way the incoming ray faces the geometric normal. -/
lemma accept_branch_ok (s : Sphere) (ray : RayR) (t : ℝ) :
    backFaceOk s ray (
      if 0 < dotV ray.direction (normalizeV (ray.origin + t • ray.direction - s.center)) then
        HitPayload.Hit t (-(normalizeV (ray.origin + t • ray.direction - s.center)))
          (ray.origin + t • ray.direction) s.materialIndex .Back
      else
        HitPayload.Hit t (normalizeV (ray.origin + t • ray.direction - s.center))
          (ray.origin + t • ray.direction) s.materialIndex .Front) := by
  by_cases h : 0 < dotV ray.direction (normalizeV (ray.origin + t • ray.direction - s.center))
  · simp only [if_pos h, backFaceOk]
    refine ⟨?_, ?_, ?_, ?_⟩
    · rw [dotV_neg_right]
      linarith
    · simp [h]
    · intro _
      trivial
    · intro hcon
      exact absurd hcon (by decide)
  · simp only [if_neg h, backFaceOk]
    refine ⟨not_lt.mp h, ?_, ?_, ?_⟩
    · simp [h]
    · intro hcon
      exact absurd hcon (by decide)
    · intro _
      trivial

/-- Every payload `check_hit_sphere` produces satisfies the orientation
contract. -/
lemma checkHit_backFaceOk (s : Sphere) (ray : RayR) (lo hi : ℝ) :
    backFaceOk s ray (checkHitSphere s ray lo hi) := by
  simp only [checkHitSphere]
  by_cases h1 : vlen (ray.origin - s.center) < s.radius
  · simp only [if_pos h1]
    trivial
  · simp only [if_neg h1]
    by_cases h2 : dotV (ray.origin - s.center) ray.direction ^ 2 -
        normSq ray.direction * (normSq (ray.origin - s.center) - s.radius ^ 2) < 0
    · simp only [if_pos h2]
      trivial
    · simp only [if_neg h2]
      by_cases h3 : inClip lo hi
          (if inClip lo hi ((-(dotV (ray.origin - s.center) ray.direction) -
              Real.sqrt (dotV (ray.origin - s.center) ray.direction ^ 2 -
                normSq ray.direction * (normSq (ray.origin - s.center) - s.radius ^ 2))) /
              normSq ray.direction) then
            ((-(dotV (ray.origin - s.center) ray.direction) -
              Real.sqrt (dotV (ray.origin - s.center) ray.direction ^ 2 -
                normSq ray.direction * (normSq (ray.origin - s.center) - s.radius ^ 2))) /
              normSq ray.direction)
          else
            ((-(dotV (ray.origin - s.center) ray.direction) +
              Real.sqrt (dotV (ray.origin - s.center) ray.direction ^ 2 -
                normSq ray.direction * (normSq (ray.origin - s.center) - s.radius ^ 2))) /
              normSq ray.direction))
      · simp only [if_pos h3]
        exact accept_branch_ok s ray _
      · simp only [if_neg h3]
        trivial

/-- Any candidate distance accepted by the renderer's per-sphere test is
the smaller quadratic root, at which the ray never points along the
outward sphere normal. -/
lemma candidate_dot_nonpos (lo hi : ℝ) (ray : RayR) (s : Sphere) (t : ℝ)
    (hd : ray.direction ≠ 0)
    (hc : sphereCandidate lo hi ray s = some t) :
    dotV ray.direction (ray.origin + t • ray.direction - s.center) ≤ 0 := by
  simp only [sphereCandidate] at hc
  by_cases hdisc : (2 * dotV ray.direction (ray.origin - s.center)) ^ 2 -
      4 * normSq ray.direction * (normSq (ray.origin - s.center) - s.radius ^ 2) < 0
  · rw [if_pos hdisc] at hc
    cases hc
  · rw [if_neg hdisc] at hc
    by_cases hin : inClip lo hi ((-(2 * dotV ray.direction (ray.origin - s.center)) -
        Real.sqrt ((2 * dotV ray.direction (ray.origin - s.center)) ^ 2 -
          4 * normSq ray.direction * (normSq (ray.origin - s.center) - s.radius ^ 2))) /
        (2 * normSq ray.direction))
    · rw [if_pos hin] at hc
      have ht : ((-(2 * dotV ray.direction (ray.origin - s.center)) -
          Real.sqrt ((2 * dotV ray.direction (ray.origin - s.center)) ^ 2 -
            4 * normSq ray.direction * (normSq (ray.origin - s.center) - s.radius ^ 2))) /
          (2 * normSq ray.direction)) = t := Option.some_injective _ hc
      rw [vec_shift, dotV_add_right, dotV_smul_right, dotV_self]
      set x := dotV ray.direction (ray.origin - s.center) with hxdef
      set a := normSq ray.direction with hadef
      set S := Real.sqrt ((2 * x) ^ 2 - 4 * a * (normSq (ray.origin - s.center) - s.radius ^ 2))
        with hSdef
      have ha : a ≠ 0 := ne_of_gt (normSq_pos _ hd)
      have hta : t * a = (-(2 * x) - S) / 2 := by
        rw [← ht]
        field_simp
        ring
      have hS : 0 ≤ S := Real.sqrt_nonneg _
      linarith [hta, hS]
    · rw [if_neg hin] at hc
      cases hc

/-- The payload `trace_ray` hands to the shader never carries a normal
pointing along the incoming ray. -/
lemma traceRay_normalOk (lo hi : ℝ) (ray : RayR) (spheres : List Sphere)
    (hd : ray.direction ≠ 0) :
    rendererNormalOk ray.direction (traceRay lo hi ray spheres) := by
  rw [traceRay]
  cases hl : traceLoop lo hi ray spheres 0 none with
  | none => trivial
  | some p =>
    obtain ⟨j, t⟩ := p
    rcases traceLoop_index lo hi ray spheres 0 none j t hl with h | ⟨k, hk, hjk, hcand⟩
    · cases h
    · have hcand' : sphereCandidate lo hi ray (spheres.getD j defaultSphere) = some t := by
        rw [hjk, Nat.zero_add]
        exact hcand
      have hdot := candidate_dot_nonpos lo hi ray (spheres.getD j defaultSphere) t hd hcand'
      simp only [onHit, rendererNormalOk, normalizeV]
      rw [dotV_smul_right]
      have hinv : 0 ≤ (vlen (ray.origin + t • ray.direction -
          (spheres.getD j defaultSphere).center))⁻¹ :=
        inv_nonneg.mpr (Real.sqrt_nonneg _)
      exact mul_nonpos_iff.mpr (Or.inl ⟨hinv, hdot⟩)

/-- C6: every accepted ray-sphere hit carries a world normal whose dot
product with the ray direction is not positive — in `check_hit_sphere`
the outward geometric normal is flipped and recorded as a back-face hit
exactly when it pointed along the ray, and in the renderer's `trace_ray`
(which only ever accepts the smaller root) the unflipped outward normal
already satisfies the bound. -/
theorem C6_normal_orientation (s : Sphere) (ray : RayR) (lo hi : ℝ)
    (spheres : List Sphere) (hd : ray.direction ≠ 0) :
    backFaceOk s ray (checkHitSphere s ray lo hi) ∧
    rendererNormalOk ray.direction (traceRay lo hi ray spheres) :=
  ⟨checkHit_backFaceOk s ray lo hi, traceRay_normalOk lo hi ray spheres hd⟩

/-- Witness for C6: the unit sphere viewed from (0,0,3). -/
theorem C6_normal_orientation_witness :
    ((⟨0, 0, -1⟩ : V3) ≠ 0) ∧
      (backFaceOk ⟨⟨0, 0, 0⟩, 1, 0⟩ ⟨⟨0, 0, 3⟩, ⟨0, 0, -1⟩⟩
          (checkHitSphere ⟨⟨0, 0, 0⟩, 1, 0⟩ ⟨⟨0, 0, 3⟩, ⟨0, 0, -1⟩⟩ (1/100) 100) ∧
        rendererNormalOk (⟨0, 0, -1⟩ : V3)
          (traceRay (1/100) 100 ⟨⟨0, 0, 3⟩, ⟨0, 0, -1⟩⟩ [⟨⟨0, 0, 0⟩, 1, 0⟩])) := by
  have hd : (⟨0, 0, -1⟩ : V3) ≠ 0 := by
    intro h
    have hz : (-1 : ℝ) = 0 := congrArg V3.z h
    norm_num at hz
  exact ⟨hd, C6_normal_orientation ⟨⟨0, 0, 0⟩, 1, 0⟩ ⟨⟨0, 0, 3⟩, ⟨0, 0, -1⟩⟩ (1/100) 100
    [⟨⟨0, 0, 0⟩, 1, 0⟩] hd⟩
